import Mathlib

set_option maxRecDepth 8000

/-!
Verification development for the BitEngine process-supervision core.

The Rust sources are shallowly embedded: strings are Lean `String`s and
string primitives used by the code (trim, split, lines, substring search,
ASCII lowercasing, integer parsing) are re-implemented structurally over
`String.data` so that every definition is executable by the kernel.
Filesystem contents and process liveness are passed in explicitly as data,
and the Iced `update` handler becomes a pure step function over an
explicit application-state record together with an environment record
carrying the results of the effectful probes it performs.
-/

-- ═ String primitives (models of the Rust `str` operations used by the code) ═

/-- ASCII/basic whitespace predicate, used to model Rust `str::trim` on the
configuration and cookie files handled by this program. -/
def isWsChar (c : Char) : Bool :=
  c = ' ' || c = '\t' || c = '\n' || c = '\r'

/-- Model of Rust `str::trim` on a character list. -/
def trimL (cs : List Char) : List Char :=
  ((cs.dropWhile isWsChar).reverse.dropWhile isWsChar).reverse

/-- Model of Rust `str::trim` as a `String` operation. -/
def trimS (s : String) : String :=
  String.mk (trimL s.data)

/-- Does the first list start with the second one? (Rust `str::starts_with`.) -/
def startsWithL : List Char → List Char → Bool
  | _, [] => true
  | [], _ :: _ => false
  | c :: cs, d :: ds => c = d && startsWithL cs ds

/-- Substring containment (Rust `str::contains` with a string pattern). -/
def containsL : List Char → List Char → Bool
  | [], pat => pat.isEmpty
  | c :: rest, pat => startsWithL (c :: rest) pat || containsL rest pat

/-- Rust `u8::to_ascii_lowercase` on one character. -/
def lowerChar (c : Char) : Char :=
  if 'A' ≤ c && c ≤ 'Z' then Char.ofNat (c.toNat + 32) else c

/-- Rust `str::to_ascii_lowercase`. -/
def lowerL (cs : List Char) : List Char :=
  cs.map lowerChar

/-- Model of Rust `str::strip_prefix`: drop `pre` from the front of `s` when
it is there, else `none`. -/
def stripPre (s pre : String) : Option String :=
  if startsWithL s.data pre.data then some (String.mk (s.data.drop pre.data.length)) else none

/-- Split a character list at every occurrence of `sep` (Rust `str::split`
with a `char` pattern; the result always has at least one, possibly empty,
part). -/
def splitOnCh (sep : Char) : List Char → List (List Char)
  | [] => [[]]
  | c :: rest =>
    let r := splitOnCh sep rest
    if c = sep then [] :: r
    else
      match r with
      | [] => [[c]]
      | h :: t => (c :: h) :: t

/-- Helper for `linesOf`: `acc` holds the current line reversed; at a
newline the line is emitted with one trailing carriage return removed,
exactly as Rust `str::lines` treats a `\r\n` terminator. -/
def linesAux (acc : List Char) : List Char → List (List Char)
  | [] => if acc.isEmpty then [] else [acc.reverse]
  | c :: rest =>
    if c = '\n' then
      (if acc.head? = some '\r' then acc.tail else acc).reverse :: linesAux [] rest
    else
      linesAux (c :: acc) rest

/-- Model of Rust `str::lines`. -/
def linesOf (s : String) : List String :=
  (linesAux [] s.data).map String.mk

/-- Model of Rust `str::split_once(':')`: split at the first colon. -/
def splitOnceColon : List Char → Option (List Char × List Char)
  | [] => none
  | c :: rest =>
    if c = ':' then some ([], rest)
    else (splitOnceColon rest).map (fun p => (c :: p.1, p.2))

/-- Numeric value of a digit string (most significant digit first). -/
def digitsVal (cs : List Char) : Nat :=
  cs.foldl (fun a c => a * 10 + (c.toNat - 48)) 0

/-- Model of Rust `str::parse` for an unsigned integer type with exclusive
upper bound `bound`: an optional leading plus sign, then one or more
decimal digits, value below the bound. -/
def parseUIntBelow (bound : Nat) (cs : List Char) : Option Nat :=
  let ds := match cs with
    | '+' :: rest => rest
    | _ => cs
  if ds.isEmpty then none
  else if ds.all Char.isDigit then
    if digitsVal ds < bound then some (digitsVal ds) else none
  else none

/-- Rust `str::parse::<u64>`. -/
def parseU64 (cs : List Char) : Option Nat :=
  parseUIntBelow (2 ^ 64) cs

/-- Rust `str::parse::<u16>`. -/
def parseU16 (cs : List Char) : Option Nat :=
  parseUIntBelow (2 ^ 16) cs

-- ═ process_manager.rs ═══════════════════════════════════════════════════════

/-- Model of `push_line` (process_manager.rs) and the identical `push_msg`
(ui.rs): the `VecDeque` is a list whose head is the oldest entry; when the
current length is strictly above 10 000 the front entry is popped, then the
new line is pushed at the back. -/
def push_line (q : List String) (line : String) : List String :=
  (if q.length > 10000 then q.drop 1 else q) ++ [line]

/-- Pushing a whole list of lines in order. -/
def pushAll (q : List String) (ls : List String) : List String :=
  ls.foldl push_line q

/-- The five electrs log patterns tested by `is_electrs_synced_line`. -/
def syncPatterns : List String :=
  ["finished full compaction", "electrs running", "waiting for new block",
   "index update completed", "chain best block"]

/-- Model of `is_electrs_synced_line` (process_manager.rs): lowercase the
line, then test the five fixed substrings. -/
def is_electrs_synced_line (line : String) : Bool :=
  let l := lowerL line.data
  containsL l "finished full compaction".data
    || containsL l "electrs running".data
    || containsL l "waiting for new block".data
    || containsL l "index update completed".data
    || containsL l "chain best block".data

/-- Case-insensitive containment, the comparison the specification
describes: both the line and the pattern are ASCII-lowercased before the
substring test. -/
def containsCI (line pat : String) : Bool :=
  containsL (lowerL line.data) (lowerL pat.data)

-- ═ rpc.rs ═══════════════════════════════════════════════════════════════════

/-- Parsed result of `getblockchaininfo` (rpc.rs).  The `u64` fields become
naturals; the `f64` verification progress is modelled as a rational, which
is exact for every comparison the program performs on it. -/
structure BlockchainInfo where
  blocks : Nat
  headers : Nat
  verification_progress : ℚ
  chain : String
  initial_block_download : Bool
  deriving Repr, DecidableEq

/-- Authentication credentials for Bitcoin RPC (rpc.rs). -/
structure RpcAuth where
  user : String
  password : String
  port : Nat
  deriving Repr, DecidableEq

/-- The observable contents of the node data directory, as read by
`RpcAuth::from_data_dir`: each field is the text of the named file, or
`none` when the file is absent or unreadable. -/
structure DataDir where
  cookie : Option String
  mainnet_cookie : Option String
  conf : Option String
  deriving Repr, DecidableEq

/-- One cookie-file probe inside `RpcAuth::from_data_dir`: the file must be
readable and its trimmed contents must split at a colon. -/
def cookieCreds : Option String → Option (String × String)
  | none => none
  | some contents =>
    (splitOnceColon (trimL contents.data)).map
      (fun p => (String.mk p.1, String.mk p.2))

/-- Model of `read_rpc_port` (rpc.rs): the first `rpcport=` line of
`bitcoin.conf` decides the port; an unparsable value on that line yields
`none` (the later `unwrap_or(8332)` supplies the default). -/
def read_rpc_port (conf : Option String) : Option Nat := do
  let c ← conf
  let l ← (linesOf c).map trimS |>.find? (fun l => (stripPre l "rpcport=").isSome)
  let rest ← stripPre l "rpcport="
  parseU16 (trimS rest).data

/-- Model of `read_static_credentials` (rpc.rs): scan every line of
`bitcoin.conf`; later `rpcuser=` / `rpcpassword=` lines overwrite earlier
ones; both must be present. -/
def read_static_credentials (conf : Option String) : Option (String × String) := do
  let c ← conf
  let acc := (linesOf c).foldl
    (fun (acc : Option String × Option String) (l0 : String) =>
      let l := trimS l0
      let acc1 := match stripPre l "rpcuser=" with
        | some v => (some (trimS v), acc.2)
        | none => acc
      match stripPre l "rpcpassword=" with
      | some v => (acc1.1, some (trimS v))
      | none => acc1)
    (none, none)
  match acc with
  | (some u, some p) => some (u, p)
  | _ => none

/-- Model of `RpcAuth::from_data_dir` (rpc.rs): port first, then the two
cookie probes in order, then static credentials, then the hardcoded
fallback. -/
def RpcAuth.from_data_dir (d : DataDir) : RpcAuth :=
  let port := (read_rpc_port d.conf).getD 8332
  match cookieCreds d.cookie with
  | some (u, p) => ⟨u, p, port⟩
  | none =>
    match cookieCreds d.mainnet_cookie with
    | some (u, p) => ⟨u, p, port⟩
    | none =>
      match read_static_credentials d.conf with
      | some (u, p) => ⟨u, p, port⟩
      | none => ⟨"bitcoin", "bitcoinrpc", port⟩

-- ═ updater.rs ═══════════════════════════════════════════════════════════════

/-- Model of `parse_semver` (updater.rs).  Rust splits with
`splitn(4, '.')`, whose first three parts coincide with a full split, and
only those three are consulted: the major part must parse as `u64`, while
a missing or unparsable minor or patch part defaults to 0. -/
def parse_semver (s : String) : Option (Nat × Nat × Nat) :=
  let parts := splitOnCh '.' s.data
  match parseU64 (parts.headD []) with
  | none => none
  | some major =>
    let minor := ((parts.get? 1).bind parseU64).getD 0
    let patch := ((parts.get? 2).bind parseU64).getD 0
    some (major, minor, patch)

/-- Strict lexicographic comparison of version triples, as Rust derives it
for tuples of integers. -/
def verLt : Nat × Nat × Nat → Nat × Nat × Nat → Bool
  | (a1, a2, a3), (b1, b2, b3) =>
    decide (a1 < b1) ||
      (decide (a1 = b1) && (decide (a2 < b2) || (decide (a2 = b2) && decide (a3 < b3))))

/-- One iteration of the `find_latest_version` loop (updater.rs): skip
non-directories, skip names without the `<pre>-` front matter, skip
unparsable versions, and replace the best candidate only on a strictly
greater version. -/
def flvStep (pre : String) (best : Option ((Nat × Nat × Nat) × String))
    (e : String × Bool) : Option ((Nat × Nat × Nat) × String) :=
  if e.2 then
    match stripPre e.1 (pre ++ "-") with
    | none => best
    | some vs =>
      match parse_semver vs with
      | none => best
      | some ver =>
        match best with
        | none => some (ver, e.1)
        | some (bv, bn) => if verLt bv ver then some (ver, e.1) else some (bv, bn)
  else best

/-- Model of `find_latest_version` (updater.rs).  The directory scan is the
list of entries `(name, is directory?)` in enumeration order. -/
def find_latest_version (entries : List (String × Bool)) (pre : String) : Option String :=
  (entries.foldl (flvStep pre) none).map Prod.snd

/-- The candidate one directory entry contributes to the version scan: its
parsed version and its name, when it is a directory named `<pre>-<semver>`
with a parsable version. -/
def entryCand (pre : String) (en : String × Bool) :
    Option ((Nat × Nat × Nat) × String) :=
  if en.2 then
    (stripPre en.1 (pre ++ "-")).bind fun vs => (parse_semver vs).map fun v => (v, en.1)
  else none

/-- All candidates of a directory listing, in enumeration order. -/
def candidates (entries : List (String × Bool)) (pre : String) :
    List ((Nat × Nat × Nat) × String) :=
  entries.filterMap (entryCand pre)

/-- The comparison step of the scan on the candidate list alone: replace
the best candidate only when the new one is strictly greater. -/
def pickLater (best : Option ((Nat × Nat × Nat) × String))
    (c : (Nat × Nat × Nat) × String) : Option ((Nat × Nat × Nat) × String) :=
  match best with
  | none => some c
  | some b => if verLt b.1 c.1 then some c else some b

/-- Modelled from the spec: among the candidates, in enumeration order,
keep the entry with the lexicographically greatest version tuple, the
first-enumerated one winning ties.  This recursion keeps the head unless a
strictly greater candidate appears later, which is exactly that selection
rule; it is proved equal to the fold of `find_latest_version`. -/
def selectLatestSpec :
    List ((Nat × Nat × Nat) × String) → Option ((Nat × Nat × Nat) × String)
  | [] => none
  | c :: rest =>
    match selectLatestSpec rest with
    | none => some c
    | some b => if verLt c.1 b.1 then some b else some c

/-- Result of the copy steps for one binary name inside the version folder:
the source file can be absent (skipped), fully copied, or fail at one of
the three fallible filesystem calls (`fs::copy`, `fs::set_permissions`,
`fs::rename`), each of which aborts `copy_binaries` through `?`. -/
inductive FStat where
  | absent
  | ok
  | failCopy
  | failChmod
  | failRename
  deriving Repr, DecidableEq

/-- The per-name loop of `copy_binaries` (updater.rs). -/
def copyLoop (file : String → FStat) : List String → Except String (List String)
  | [] => .ok []
  | n :: rest =>
    match file n with
    | .absent => copyLoop file rest
    | .ok =>
      match copyLoop file rest with
      | .ok c => .ok (n :: c)
      | .error e => .error e
    | .failCopy => .error ("copy " ++ n ++ " to temp failed")
    | .failChmod => .error ("chmod " ++ n ++ " failed")
    | .failRename => .error ("rename " ++ n ++ " failed")

/-- Model of `copy_binaries` (updater.rs): `create_dir_all` on the
destination first, then the per-name loop; `file` gives the copy outcome of
each name in the source folder. -/
def copy_binaries (mkdirOk : Bool) (file : String → FStat) (names : List String) :
    Except String (List String) :=
  if mkdirOk then copyLoop file names else .error "create binaries dir failed"

/-- Outcome of an update attempt (updater.rs). -/
inductive UpdateResult where
  | Updated (msg : String)
  | BitForgeFound (path : String)
  | BitForgeNotFound
  | BinariesSubfolderMissing
  | NothingToUpdate
  deriving Repr, DecidableEq

/-- The filesystem facts consulted by `run_update`: existence of the
download folder, of the companion application, and of the `binaries`
sub-folder; the entries of that sub-folder; and the copy outcome of each
binary name inside each version folder. -/
structure UpdFs where
  downloads_exists : Bool
  bitforge_exists : Bool
  binaries_exists : Bool
  entries : List (String × Bool)
  mkdir_ok : Bool
  file : String → String → FStat

/-- The bitcoin component binary list (updater.rs). -/
def btcNames : List String := ["bitcoind", "bitcoin-cli", "bitcoin-tx", "bitcoin-util"]

/-- Comma join used for the copied-binaries summary. -/
def joinComma : List String → String
  | [] => ""
  | [x] => x
  | x :: rest => x ++ ", " ++ joinComma rest

/-- Newline join used for the aggregated update message. -/
def joinNl : List String → String
  | [] => ""
  | [x] => x
  | x :: rest => x ++ "\n" ++ joinNl rest

/-- The messages the bitcoin component contributes inside `run_update`:
nothing when there is no matching folder or nothing was copied, a summary
line on success, an error line when its copy pass failed. -/
def btcMsgs (fs : UpdFs) (folder : Option String) : List String :=
  match folder with
  | none => []
  | some f =>
    match copy_binaries fs.mkdir_ok (fs.file f) btcNames with
    | .ok [] => []
    | .ok copied => ["Bitcoin (" ++ f ++ "): " ++ joinComma copied]
    | .error e => ["Bitcoin update error: " ++ e]

/-- The messages the electrs component contributes inside `run_update`. -/
def etrMsgs (fs : UpdFs) (folder : Option String) : List String :=
  match folder with
  | none => []
  | some f =>
    match copy_binaries fs.mkdir_ok (fs.file f) ["electrs"] with
    | .ok [] => []
    | .ok copied => ["Electrs (" ++ f ++ "): " ++ joinComma copied]
    | .error e => ["Electrs update error: " ++ e]

/-- Model of `run_update` (updater.rs). -/
def run_update (fs : UpdFs) : UpdateResult :=
  if !fs.downloads_exists then
    if fs.bitforge_exists then .BitForgeFound "/Applications/BitForge.app"
    else .BitForgeNotFound
  else if !fs.binaries_exists then .BinariesSubfolderMissing
  else
    let btc := find_latest_version fs.entries "bitcoin"
    let etr := find_latest_version fs.entries "electrs"
    if btc.isNone && etr.isNone then .NothingToUpdate
    else
      let msgs := btcMsgs fs btc ++ etrMsgs fs etr
      if msgs.isEmpty then .NothingToUpdate else .Updated (joinNl msgs)

/-- A source folder in which copying bitcoind fails while every other
binary would copy fine. -/
def failingBtcFolder : String → FStat :=
  fun n => if n = "bitcoind" then .failCopy else .ok

/-- A concrete update filesystem for the C2 witness: one bitcoin and one
electrs version folder, bitcoind failing to copy, electrs copying fine. -/
def c2Fs : UpdFs :=
  { downloads_exists := true
    bitforge_exists := false
    binaries_exists := true
    entries := [("bitcoin-27.0", true), ("electrs-0.10.5", true)]
    mkdir_ok := true
    file := fun _folder n =>
      if n = "bitcoind" then .failCopy
      else if n = "electrs" then .ok
      else .absent }

-- ═ ui.rs ════════════════════════════════════════════════════════════════════

/-- The node sync formula applied by the `BlockchainInfoReceived` handler
(ui.rs): `headers > 0 && blocks >= headers.saturating_sub(1) &&
verification_progress > 0.9999`.  Saturating `u64` subtraction is exactly
truncated `Nat` subtraction. -/
def node_synced (i : BlockchainInfo) : Bool :=
  decide (i.headers > 0) && decide (i.blocks ≥ i.headers - 1)
    && decide (i.verification_progress > mkRat 9999 10000)

/-- Outcome of one `launch_bitcoind` / `launch_electrs` call as observed by
the `update` handler: success, or an error; on an error the synthetic
command line may or may not already have been pushed (it is pushed after
the existence check and the data-directory creation but before the spawn). -/
inductive LaunchOutcome where
  | ok
  | fail (cmdPushed : Bool) (err : String)
  deriving Repr, DecidableEq

/-- Results of the effectful probes one `App::update` call can perform:
the `is_running` answers of the two child handles and the outcome either
launch function would have. -/
structure Env where
  bitcoin_alive : Bool
  electrs_alive : Bool
  btc_launch : LaunchOutcome
  els_launch : LaunchOutcome
  deriving Repr, DecidableEq

/-- The `Message` enum of ui.rs.  Async results are carried inside the
message, as in the source; the source variant `UpdateResult` is rendered
`UpdateResultMsg` to keep the updater enum name free. -/
inductive Msg where
  | OutputTick
  | RpcTick
  | BinariesPathChanged (v : String)
  | BitcoinDataPathChanged (v : String)
  | ElectrsDataPathChanged (v : String)
  | BrowseBinaries
  | BrowseBitcoinData
  | BrowseElectrsData
  | BinariesBrowsed (p : Option String)
  | BitcoinDataBrowsed (p : Option String)
  | ElectrsDataBrowsed (p : Option String)
  | SavePaths
  | PathsSaved (r : Except String Unit)
  | TogglePathsPanel
  | LaunchBitcoin
  | LaunchElectrs
  | ShutdownBoth
  | ShutdownElectrsOnly
  | BlockchainInfoReceived (r : Except String BlockchainInfo)
  | UpdateBinaries
  | UpdateResultMsg (v : String)
  | DismissOverlay
  | OpenBitForge (p : String)
  | Noop
  deriving Repr

/-- The `App` state of ui.rs restricted to data: process handles become
their presence, paths become strings, and the shared output queues are the
line lists of the `push_line` model.  `cfg_path` is the constant
`Config::config_file_path()` text interpolated into some messages. -/
structure AppState where
  binaries_path : String
  bitcoin_data_path : String
  electrs_data_path : String
  cfg_path : String
  binaries_path_edit : String
  bitcoin_data_path_edit : String
  electrs_data_path_edit : String
  bitcoin_handle : Bool
  electrs_handle : Bool
  bitcoin_queue : List String
  electrs_queue : List String
  bitcoin_lines : List String
  electrs_lines : List String
  bitcoin_running : Bool
  electrs_running : Bool
  bitcoin_synced : Bool
  electrs_synced : Bool
  block_height : Nat
  paths_visible : Bool
  overlay_message : Option String
  bitforge_path : Option String
  deriving Repr, DecidableEq

/-- `push_msg` (ui.rs) has the same body as `push_line`. -/
def push_msg (q : List String) (m : String) : List String :=
  push_line q m

/-- The OutputTick terminal-buffer trim: keep the last 5 000 lines. -/
def trim5000 (ls : List String) : List String :=
  if ls.length > 5000 then ls.drop (ls.length - 5000) else ls

/-- The synthetic command line `launch_bitcoind` pushes before spawning. -/
def btcCmd (s : AppState) : String :=
  "$ " ++ s.binaries_path ++ "/bitcoind -datadir=" ++ s.bitcoin_data_path
    ++ " -printtoconsole"

/-- The synthetic command line `launch_electrs` pushes before spawning. -/
def elsCmd (s : AppState) : String :=
  "$ " ++ s.binaries_path ++ "/electrs --network bitcoin --daemon-dir "
    ++ s.bitcoin_data_path ++ " --db-dir " ++ s.electrs_data_path
    ++ " --electrum-rpc-addr 127.0.0.1:50001"

/-- Model of `App::terminate_electrs_internal` (ui.rs): when a handle is
present it is taken and a diagnostic line is pushed (the actual terminate
runs on a background thread); the running and synced flags are cleared
unconditionally. -/
def terminate_electrs_internal (s : AppState) : AppState :=
  let s1 :=
    if s.electrs_handle then
      { s with electrs_handle := false,
               electrs_queue := push_msg s.electrs_queue "Terminating electrs…" }
    else s
  { s1 with electrs_running := false, electrs_synced := false }

/-- Model of `App::update` (ui.rs) as a pure step function.  Iced `Task`
values only schedule further messages or background work, so the returned
state is the whole effect on `App`; async completions re-enter as later
messages and background queue pushes as separate `Act` steps. -/
def stepMsg (s : AppState) (e : Env) : Msg → AppState
  | .OutputTick =>
    let s1 := { s with bitcoin_lines := s.bitcoin_lines ++ s.bitcoin_queue,
                       bitcoin_queue := [] }
    let s2 := { s1 with
                electrs_synced := s1.electrs_synced || s1.electrs_queue.any is_electrs_synced_line,
                electrs_lines := s1.electrs_lines ++ s1.electrs_queue,
                electrs_queue := [] }
    let s3 := { s2 with bitcoin_lines := trim5000 s2.bitcoin_lines,
                        electrs_lines := trim5000 s2.electrs_lines }
    let s4 :=
      if s3.bitcoin_running && s3.bitcoin_handle && !e.bitcoin_alive then
        { s3 with bitcoin_running := false, bitcoin_synced := false,
                  block_height := 0, electrs_synced := false,
                  bitcoin_queue := push_msg s3.bitcoin_queue "bitcoind has stopped." }
      else s3
    if s4.electrs_running && s4.electrs_handle && !e.electrs_alive then
      { s4 with electrs_running := false, electrs_synced := false,
                electrs_queue := push_msg s4.electrs_queue "electrs has stopped." }
    else s4
  | .RpcTick => s
  | .BinariesPathChanged v => { s with binaries_path_edit := v }
  | .BitcoinDataPathChanged v => { s with bitcoin_data_path_edit := v }
  | .ElectrsDataPathChanged v => { s with electrs_data_path_edit := v }
  | .BrowseBinaries => s
  | .BrowseBitcoinData => s
  | .BrowseElectrsData => s
  | .BinariesBrowsed p =>
    match p with
    | some v => { s with binaries_path_edit := v }
    | none => s
  | .BitcoinDataBrowsed p =>
    match p with
    | some v => { s with bitcoin_data_path_edit := v }
    | none => s
  | .ElectrsDataBrowsed p =>
    match p with
    | some v => { s with electrs_data_path_edit := v }
    | none => s
  | .SavePaths =>
    let bins := trimS s.binaries_path_edit
    let btc := trimS s.bitcoin_data_path_edit
    let els := trimS s.electrs_data_path_edit
    if bins.isEmpty || btc.isEmpty || els.isEmpty then
      { s with overlay_message := some "All path fields must be filled in." }
    else
      { s with binaries_path := bins, bitcoin_data_path := btc,
               electrs_data_path := els }
  | .PathsSaved r =>
    match r with
    | .ok _ =>
      { s with overlay_message := some ("Paths saved.\nChanges take effect on the next node launch.\n\nConfig: " ++ s.cfg_path) }
    | .error err =>
      { s with overlay_message := some ("Failed to save paths:\n" ++ err) }
  | .TogglePathsPanel => { s with paths_visible := !s.paths_visible }
  | .LaunchBitcoin =>
    if s.bitcoin_running then
      { s with overlay_message := some "Bitcoin is already running." }
    else
      match e.btc_launch with
      | .ok =>
        { s with bitcoin_queue := push_line s.bitcoin_queue (btcCmd s),
                 bitcoin_handle := true, bitcoin_running := true,
                 bitcoin_synced := false }
      | .fail cp err =>
        let q := if cp then push_line s.bitcoin_queue (btcCmd s) else s.bitcoin_queue
        { s with bitcoin_queue := push_msg q ("Launch error: " ++ err),
                 overlay_message := some ("Failed to launch Bitcoin:\n" ++ err) }
  | .LaunchElectrs =>
    if s.electrs_running then
      { s with overlay_message := some "Electrs is already running." }
    else if !s.bitcoin_running then
      { s with overlay_message := some "Bitcoin must be running before starting Electrs.\nLaunch Bitcoin first and wait for the Running indicator." }
    else
      match e.els_launch with
      | .ok =>
        { s with electrs_queue := push_line s.electrs_queue (elsCmd s),
                 electrs_handle := true, electrs_running := true,
                 electrs_synced := false }
      | .fail cp err =>
        let q := if cp then push_line s.electrs_queue (elsCmd s) else s.electrs_queue
        { s with electrs_queue := push_msg q ("Launch error: " ++ err),
                 overlay_message := some ("Failed to launch Electrs:\n" ++ err) }
  | .ShutdownBoth =>
    let s1 := terminate_electrs_internal s
    if s1.bitcoin_running then
      let s2 := { s1 with bitcoin_queue := push_msg s1.bitcoin_queue "Sending stop via RPC…" }
      if s2.bitcoin_handle then
        { s2 with bitcoin_handle := false, bitcoin_running := false,
                  bitcoin_synced := false }
      else s2
    else s1
  | .ShutdownElectrsOnly => terminate_electrs_internal s
  | .BlockchainInfoReceived r =>
    match r with
    | .ok info =>
      { s with block_height := info.blocks, bitcoin_synced := node_synced info }
    | .error _ => s
  | .UpdateBinaries => s
  | .UpdateResultMsg v =>
    match stripPre v "__BITFORGE_FOUND__" with
    | some p =>
      { s with bitforge_path := some p,
               overlay_message := some "No bitcoin_builds folder found.\n\nBitForge.app is installed — open it to build binaries?" }
    | none => { s with bitforge_path := none, overlay_message := some v }
  | .DismissOverlay => { s with overlay_message := none, bitforge_path := none }
  | .OpenBitForge _ => { s with overlay_message := none, bitforge_path := none }
  | .Noop => s

/-- One step of the whole system: a UI message dispatch, or a background
reader or shutdown thread pushing one line into a shared queue. -/
inductive Act where
  | ui (m : Msg) (e : Env)
  | pushBtc (line : String)
  | pushEls (line : String)

/-- System step. -/
def step (s : AppState) : Act → AppState
  | .ui m e => stepMsg s e m
  | .pushBtc l => { s with bitcoin_queue := push_line s.bitcoin_queue l }
  | .pushEls l => { s with electrs_queue := push_line s.electrs_queue l }

/-- Model of `App::new` (ui.rs): fresh flags, and the startup banner lines
already pushed into the two queues. -/
def initState (bins btcDir elsDir cfgPath : String) : AppState :=
  { binaries_path := bins
    bitcoin_data_path := btcDir
    electrs_data_path := elsDir
    cfg_path := cfgPath
    binaries_path_edit := bins
    bitcoin_data_path_edit := btcDir
    electrs_data_path_edit := elsDir
    bitcoin_handle := false
    electrs_handle := false
    bitcoin_queue := pushAll []
      ["=== Bitcoin Node Manager started ===", "Config   : " ++ cfgPath,
       "Binaries : " ++ bins, "Data dir : " ++ btcDir]
    electrs_queue := pushAll []
      ["=== Electrs Node Manager started ===", "Binaries : " ++ bins,
       "DB dir   : " ++ elsDir]
    bitcoin_lines := []
    electrs_lines := []
    bitcoin_running := false
    electrs_running := false
    bitcoin_synced := false
    electrs_synced := false
    block_height := 0
    paths_visible := true
    overlay_message := none
    bitforge_path := none }

/-- The ways a step can legitimately clear `electrs_synced` in the code: a
shutdown request (which terminates electrs), an OutputTick observing the
bitcoind or the electrs process dead, or a successful electrs (re)launch. -/
def clearsElectrsSynced (s : AppState) (a : Act) : Prop :=
  match a with
  | .ui .ShutdownBoth _ => True
  | .ui .ShutdownElectrsOnly _ => True
  | .ui .LaunchElectrs e =>
    s.electrs_running = false ∧ s.bitcoin_running = true ∧ e.els_launch = .ok
  | .ui .OutputTick e =>
    (s.bitcoin_running = true ∧ s.bitcoin_handle = true ∧ e.bitcoin_alive = false) ∨
      (s.electrs_running = true ∧ s.electrs_handle = true ∧ e.electrs_alive = false)
  | _ => False

/-- The precondition-failure overlay text a denied `LaunchElectrs` request
shows: the already-running notice when electrs is up, else the
bitcoin-must-run notice (both strings from ui.rs). -/
def launchElectrsDenyMsg (s : AppState) : String :=
  if s.electrs_running then "Electrs is already running."
  else "Bitcoin must be running before starting Electrs.\nLaunch Bitcoin first and wait for the Running indicator."

/-- An environment in which both child processes answer alive and any
launch would succeed. -/
def envBothAlive : Env := ⟨true, true, .ok, .ok⟩

/-- An environment in which bitcoind has died while electrs is alive. -/
def envBtcDead : Env := ⟨false, true, .ok, .ok⟩

/-- A concrete reachable trace: start, launch bitcoind, launch electrs, a
reader thread pushes one sync line, one OutputTick drains it. -/
def c3s0 : AppState := initState "/b" "/d" "/e" "/c"

def c3s1 : AppState := step c3s0 (.ui .LaunchBitcoin envBothAlive)

def c3s2 : AppState := step c3s1 (.ui .LaunchElectrs envBothAlive)

def c3s3 : AppState := step c3s2 (.pushEls "electrs running")

def c3s4 : AppState := step c3s3 (.ui .OutputTick envBothAlive)

/-- One more OutputTick, now observing bitcoind dead and electrs alive. -/
def c3s5 : AppState := step c3s4 (.ui .OutputTick envBtcDead)

/-- The startup state with the indexer-synced flag set, used as a concrete
instance for the stickiness characterization. -/
def c3ClearState : AppState := { initState "/b" "/d" "/e" "/c" with electrs_synced := true }

-- ═ Helper lemmas: bounded queue ═════════════════════════════════════════════

theorem push_line_of_le (q : List String) (l : String) (h : q.length ≤ 10000) :
    push_line q l = q ++ [l] := by
  unfold push_line
  rw [if_neg (by omega)]

theorem push_line_of_full (q : List String) (l : String) (h : 10000 < q.length) :
    push_line q l = q.drop 1 ++ [l] := by
  unfold push_line
  rw [if_pos (by omega)]

/-- Closed form of a push sequence: provided the queue respects the real
bound of 10 001 entries, pushing a list appends it and drops just enough
oldest entries to keep at most 10 001. -/
theorem pushAll_eq_drop (ls q : List String) (h : q.length ≤ 10001) :
    pushAll q ls = (q ++ ls).drop (q.length + ls.length - 10001) := by
  induction ls generalizing q with
  | nil =>
    have hz : q.length + List.length ([] : List String) - 10001 = 0 := by
      simp only [List.length_nil]
      omega
    simp only [pushAll, List.foldl_nil, List.append_nil, hz, List.drop_zero]
  | cons l ls ih =>
    have hstep : pushAll q (l :: ls) = pushAll (push_line q l) ls := by
      simp [pushAll]
    by_cases hq : q.length ≤ 10000
    · rw [hstep, push_line_of_le q l hq,
        ih (q ++ [l])
          (by simp only [List.length_append, List.length_cons, List.length_nil]; omega)]
      have harr : (q ++ [l]) ++ ls = q ++ l :: ls := by simp
      have hidx : (q ++ [l]).length + ls.length - 10001
          = q.length + (l :: ls).length - 10001 := by
        simp only [List.length_append, List.length_cons, List.length_nil]
        omega
      rw [harr, hidx]
    · have hq' : q.length = 10001 := by omega
      rw [hstep, push_line_of_full q l (by omega),
        ih (q.drop 1 ++ [l])
          (by simp only [List.length_append, List.length_cons, List.length_nil,
                List.length_drop]
              omega)]
      have harr : (q.drop 1 ++ [l]) ++ ls = q.drop 1 ++ l :: ls := by simp
      have hidx : (q.drop 1 ++ [l]).length + ls.length - 10001 = ls.length := by
        simp only [List.length_append, List.length_cons, List.length_nil,
          List.length_drop]
        omega
      have hidx2 : q.length + (l :: ls).length - 10001 = ls.length + 1 := by
        simp only [List.length_cons]
        omega
      rw [harr, hidx, hidx2]
      cases q with
      | nil => simp at hq'
      | cons a q' =>
        simp only [List.cons_append, List.drop_succ_cons, List.drop_one,
          List.tail_cons, List.drop_zero]

/-- C1 (code bug): the queue cap is off by one.  `push_line` pops the
oldest entry only when the length is already strictly above 10 000, and
only then pushes, so a fresh queue grows to 10 001 entries after 10 001
pushes — above the documented 10 000-entry cap — and from then on keeps
exactly the 10 001 most recent lines in order, as the second conjunct
shows for 10 002 pushes. -/
theorem outputQueue_exceeds_cap :
    (pushAll [] (List.replicate 10001 "line")).length = 10001
      ∧ pushAll [] (List.replicate 10002 "line") = List.replicate 10001 "line" := by
  have h1 := pushAll_eq_drop (List.replicate 10001 "line") []
    (by simp only [List.length_nil]; omega)
  have h2 := pushAll_eq_drop (List.replicate 10002 "line") []
    (by simp only [List.length_nil]; omega)
  rw [List.nil_append] at h1 h2
  constructor
  · rw [h1, List.length_drop, List.length_nil, List.length_replicate]
  · rw [h2, List.length_nil, List.length_replicate,
      show (0 + 10002 - 10001 : Nat) = 1 by omega,
      show (10002 : Nat) = 10001 + 1 by omega,
      List.replicate_succ]
    simp only [List.drop_succ_cons, List.drop_zero]

-- ═ Helper lemmas: list tails ═════════════════════════════════════════════════

theorem getLast?_append_singleton {α : Type} (l : List α) (a : α) :
    (l ++ [a]).getLast? = some a := by
  induction l with
  | nil => rfl
  | cons x xs ih =>
    rw [List.cons_append]
    cases h : xs ++ [a] with
    | nil => exact absurd (congrArg List.length h) (by simp)
    | cons z zs =>
      rw [List.getLast?_cons_cons]
      rw [h] at ih
      exact ih

-- ═ Claim theorems ═══════════════════════════════════════════════════════════

/-- C10 (confirmed): an error result delivered to the
`BlockchainInfoReceived` handler leaves the whole application state
unchanged — in particular `block_height` and `bitcoin_synced` keep their
previous, possibly stale, values. -/
theorem rpc_error_frame (s : AppState) (e : Env) (err : String) :
    stepMsg s e (.BlockchainInfoReceived (.error err)) = s := rfl

/-- C4 counterexample: on an error result the `BlockchainInfoReceived`
handler pushes no diagnostic line onto the bitcoin output queue — here the
concrete state after startup is completely unchanged by a delivered RPC
failure, so no line describing the failure is appended anywhere. -/
theorem rpc_error_no_diagnostic_line :
    stepMsg (initState "/b" "/d" "/e" "/c") ⟨true, true, .ok, .ok⟩
        (.BlockchainInfoReceived (.error "connection refused"))
      = initState "/b" "/d" "/e" "/c" := rfl

/-- C4 amended: an error result delivered to the `BlockchainInfoReceived`
handler is silently discarded — the queues and the overlay are untouched
and the host process continues — whereas spawn failures really are
surfaced both as an overlay message and as a diagnostic line appended to
the relevant output queue. -/
theorem rpc_error_swallowed :
    (∀ (s : AppState) (e : Env) (err : String),
        (stepMsg s e (.BlockchainInfoReceived (.error err))).bitcoin_queue = s.bitcoin_queue
        ∧ (stepMsg s e (.BlockchainInfoReceived (.error err))).electrs_queue = s.electrs_queue
        ∧ (stepMsg s e (.BlockchainInfoReceived (.error err))).overlay_message = s.overlay_message)
    ∧ (∀ (s : AppState) (e : Env) (cp : Bool) (err : String),
        s.bitcoin_running = false → e.btc_launch = .fail cp err →
        (stepMsg s e .LaunchBitcoin).overlay_message
            = some ("Failed to launch Bitcoin:\n" ++ err)
        ∧ ((stepMsg s e .LaunchBitcoin).bitcoin_queue).getLast?
            = some ("Launch error: " ++ err)) := by
  constructor
  · intro s e err
    exact ⟨rfl, rfl, rfl⟩
  · intro s e cp err hr hl
    have hb : (s.bitcoin_running = true) = False := by simp [hr]
    constructor
    · simp only [stepMsg, hr, Bool.false_eq_true, if_false, hl]
    · simp only [stepMsg, hr, Bool.false_eq_true, if_false, hl, push_msg, push_line]
      exact getLast?_append_singleton _ _

/-- C4 witness for the amended claim at a concrete failed spawn. -/
theorem rpc_error_swallowed_witness :
    (stepMsg (initState "/b" "/d" "/e" "/c") ⟨true, true, .fail false "bitcoind not found", .ok⟩
        .LaunchBitcoin).overlay_message
      = some ("Failed to launch Bitcoin:\n" ++ "bitcoind not found")
    ∧ ((stepMsg (initState "/b" "/d" "/e" "/c") ⟨true, true, .fail false "bitcoind not found", .ok⟩
        .LaunchBitcoin).bitcoin_queue).getLast?
      = some ("Launch error: " ++ "bitcoind not found") :=
  rpc_error_swallowed.2 (initState "/b" "/d" "/e" "/c")
    ⟨true, true, .fail false "bitcoind not found", .ok⟩ false "bitcoind not found" rfl rfl


/-- C9 (confirmed): whenever bitcoind is not running, a `LaunchElectrs`
request only sets the overlay to a precondition-failure message (the
already-running notice when electrs is somehow up, else the
bitcoin-must-run notice); every other field — process handles, running
flags, sync flags, queues, terminal buffers — is left unchanged and no
process is spawned. -/
theorem launch_electrs_requires_bitcoin (s : AppState) (e : Env)
    (h : s.bitcoin_running = false) :
    stepMsg s e .LaunchElectrs = { s with overlay_message := some (launchElectrsDenyMsg s) } := by
  unfold launchElectrsDenyMsg
  by_cases hr : s.electrs_running = true
  · simp only [stepMsg, hr, if_true, if_pos]
  · have hr' : s.electrs_running = false := by
      cases hv : s.electrs_running
      · rfl
      · exact absurd hv hr
    simp only [stepMsg, hr', Bool.false_eq_true, if_false, h, Bool.not_false, if_true]

/-- C9 witness at the startup state. -/
theorem launch_electrs_requires_bitcoin_witness :
    stepMsg (initState "/b" "/d" "/e" "/c") ⟨true, true, .ok, .ok⟩ .LaunchElectrs
      = { initState "/b" "/d" "/e" "/c" with
          overlay_message := some (launchElectrsDenyMsg (initState "/b" "/d" "/e" "/c")) } :=
  launch_electrs_requires_bitcoin (initState "/b" "/d" "/e" "/c") ⟨true, true, .ok, .ok⟩ rfl

/-- C5 (confirmed): the node sync predicate computed by the
`BlockchainInfoReceived` handler is exactly headers positive, blocks at
least headers minus one, and verification progress strictly above 0.9999
(the rationals `mkRat 9999 10000` and friends are definitionally the f64
literals of the source, as the last conjuncts record); the three concrete
cases of the claim follow. -/
theorem node_synced_spec :
    (∀ i : BlockchainInfo, node_synced i = true ↔
        (0 < i.headers ∧ i.headers - 1 ≤ i.blocks
          ∧ mkRat 9999 10000 < i.verification_progress))
    ∧ (∀ (s : AppState) (e : Env) (i : BlockchainInfo),
        stepMsg s e (.BlockchainInfoReceived (.ok i))
          = { s with block_height := i.blocks, bitcoin_synced := node_synced i })
    ∧ node_synced ⟨799999, 800000, mkRat 99995 100000, "main", false⟩ = true
    ∧ node_synced ⟨100, 1000, mkRat 1 2, "main", false⟩ = false
    ∧ (∀ (blocks : Nat) (progress : ℚ) (chain : String) (ibd : Bool),
        node_synced ⟨blocks, 0, progress, chain, ibd⟩ = false)
    ∧ (mkRat 9999 10000 : ℚ) = 0.9999
    ∧ (mkRat 99995 100000 : ℚ) = 0.99995
    ∧ (mkRat 1 2 : ℚ) = 0.5 := by
  refine ⟨?_, ?_, ?_, ?_, ?_, ?_, ?_, ?_⟩
  · intro i
    simp [node_synced, and_assoc]
  · intro s e i
    rfl
  · decide
  · decide
  · intro blocks progress chain ibd
    simp [node_synced]
  · norm_num [mkRat]
  · norm_num [mkRat]
  · norm_num [mkRat]

/-- C7 (confirmed): credential resolution order of
`RpcAuth::from_data_dir` is data-dir cookie, then mainnet cookie, then
`rpcuser=`/`rpcpassword=` lines of bitcoin.conf, then the static fallback,
first match winning; the port always comes from the first `rpcport=` line
of the same bitcoin.conf and defaults to 8332 when the file or the line is
absent or its value unparsable, as the closing concrete cases exercise. -/
theorem rpc_auth_resolution :
    (∀ (d : DataDir) (up : String × String), cookieCreds d.cookie = some up →
        RpcAuth.from_data_dir d = ⟨up.1, up.2, (read_rpc_port d.conf).getD 8332⟩)
    ∧ (∀ (d : DataDir) (up : String × String), cookieCreds d.cookie = none →
        cookieCreds d.mainnet_cookie = some up →
        RpcAuth.from_data_dir d = ⟨up.1, up.2, (read_rpc_port d.conf).getD 8332⟩)
    ∧ (∀ (d : DataDir) (up : String × String), cookieCreds d.cookie = none →
        cookieCreds d.mainnet_cookie = none →
        read_static_credentials d.conf = some up →
        RpcAuth.from_data_dir d = ⟨up.1, up.2, (read_rpc_port d.conf).getD 8332⟩)
    ∧ (∀ d : DataDir, cookieCreds d.cookie = none →
        cookieCreds d.mainnet_cookie = none →
        read_static_credentials d.conf = none →
        RpcAuth.from_data_dir d = ⟨"bitcoin", "bitcoinrpc", (read_rpc_port d.conf).getD 8332⟩)
    ∧ (∀ d : DataDir, (RpcAuth.from_data_dir d).port = (read_rpc_port d.conf).getD 8332)
    ∧ read_rpc_port none = none
    ∧ read_rpc_port (some "rpcport=18443\n") = some 18443
    ∧ read_rpc_port (some "rpcport=notanumber\n") = none
    ∧ read_rpc_port (some "server=1\ntxindex=1\n") = none
    ∧ RpcAuth.from_data_dir ⟨some "user:pass\n", none, none⟩ = ⟨"user", "pass", 8332⟩
    ∧ RpcAuth.from_data_dir ⟨none, some "mu:mp", some "rpcuser=alice\nrpcpassword=bob\nrpcport=18443"⟩ = ⟨"mu", "mp", 18443⟩
    ∧ RpcAuth.from_data_dir ⟨some "nocolon", none, some " rpcuser=alice\nrpcpassword=bob"⟩ = ⟨"alice", "bob", 8332⟩
    ∧ RpcAuth.from_data_dir ⟨none, none, none⟩ = ⟨"bitcoin", "bitcoinrpc", 8332⟩ := by
  refine ⟨?_, ?_, ?_, ?_, ?_, by decide, by decide, by decide, by decide, by decide, by decide, by decide, by decide⟩
  · intro d up h1
    obtain ⟨u, p⟩ := up
    simp only [RpcAuth.from_data_dir, h1]
  · intro d up h1 h2
    obtain ⟨u, p⟩ := up
    simp only [RpcAuth.from_data_dir, h1, h2]
  · intro d up h1 h2 h3
    obtain ⟨u, p⟩ := up
    simp only [RpcAuth.from_data_dir, h1, h2, h3]
  · intro d h1 h2 h3
    simp only [RpcAuth.from_data_dir, h1, h2, h3]
  · intro d
    cases h1 : cookieCreds d.cookie with
    | some up =>
      obtain ⟨u, p⟩ := up
      simp only [RpcAuth.from_data_dir, h1]
    | none =>
      cases h2 : cookieCreds d.mainnet_cookie with
      | some up =>
        obtain ⟨u, p⟩ := up
        simp only [RpcAuth.from_data_dir, h1, h2]
      | none =>
        cases h3 : read_static_credentials d.conf with
        | some up =>
          obtain ⟨u, p⟩ := up
          simp only [RpcAuth.from_data_dir, h1, h2, h3]
        | none =>
          simp only [RpcAuth.from_data_dir, h1, h2, h3]

/-- C7 witness: the first-probe cookie wins at a concrete data dir. -/
theorem rpc_auth_resolution_witness :
    RpcAuth.from_data_dir ⟨some "cu:cp\n", some "mu:mp", some "rpcuser=a\nrpcpassword=b"⟩
      = ⟨"cu", "cp", 8332⟩ :=
  rpc_auth_resolution.1 ⟨some "cu:cp\n", some "mu:mp", some "rpcuser=a\nrpcpassword=b"⟩
    ("cu", "cp") (by decide)


/-- C8 (confirmed): `is_electrs_synced_line` holds exactly when the line,
compared case-insensitively, contains at least one of the five fixed
substrings; two concrete lines illustrate both directions. -/
theorem is_electrs_synced_line_spec :
    (∀ line : String,
        is_electrs_synced_line line = syncPatterns.any (fun p => containsCI line p))
    ∧ is_electrs_synced_line "INFO: Finished full compaction" = true
    ∧ is_electrs_synced_line "still indexing block 1234" = false := by
  refine ⟨?_, by decide, by decide⟩
  intro line
  have h1 : lowerL "finished full compaction".data = "finished full compaction".data := by decide
  have h2 : lowerL "electrs running".data = "electrs running".data := by decide
  have h3 : lowerL "waiting for new block".data = "waiting for new block".data := by decide
  have h4 : lowerL "index update completed".data = "index update completed".data := by decide
  have h5 : lowerL "chain best block".data = "chain best block".data := by decide
  simp only [is_electrs_synced_line, syncPatterns, containsCI, List.any_cons,
    List.any_nil, h1, h2, h3, h4, h5, Bool.or_false, Bool.or_assoc]


/-- C2 counterexample: inside one `copy_binaries` pass, a copy failure on
one binary aborts the copying of the remaining binaries of the list — with
bitcoind failing the whole pass returns an error and bitcoin-cli is not
copied, although the second conjunct shows bitcoin-cli alone would be. -/
theorem copy_binaries_abort_counterexample :
    copy_binaries true failingBtcFolder ["bitcoind", "bitcoin-cli"]
        = .error "copy bitcoind to temp failed"
      ∧ copy_binaries true failingBtcFolder ["bitcoin-cli"] = .ok ["bitcoin-cli"] :=
  ⟨rfl, rfl⟩

/-- C2 amended: failure isolation is per component, not per binary: a
failed copy aborts the rest of that component's own binary list, but a
failing bitcoin pass does not prevent the electrs pass from proceeding,
and the two results are aggregated into the final `Updated` message. -/
theorem run_update_component_isolation (fs : UpdFs) (f g e : String) (c : List String)
    (hdl : fs.downloads_exists = true) (hbin : fs.binaries_exists = true)
    (hf : find_latest_version fs.entries "bitcoin" = some f)
    (hg : find_latest_version fs.entries "electrs" = some g)
    (hbe : copy_binaries fs.mkdir_ok (fs.file f) btcNames = .error e)
    (hec : copy_binaries fs.mkdir_ok (fs.file g) ["electrs"] = .ok c)
    (hne : c ≠ []) :
    run_update fs
      = .Updated ("Bitcoin update error: " ++ e ++ "\n"
          ++ ("Electrs (" ++ g ++ "): " ++ joinComma c)) := by
  cases c with
  | nil => exact absurd rfl hne
  | cons x xs =>
    simp only [run_update, btcMsgs, etrMsgs, hdl, hbin, hf, hg, hbe, hec,
      Bool.not_true, Bool.false_eq_true, if_false, Option.isNone_some,
      Bool.and_false, Bool.false_and, List.cons_append, List.isEmpty_cons,
      List.nil_append, joinNl]


/-- C2 witness: the amended isolation property at the concrete filesystem. -/
theorem run_update_component_isolation_witness :
    run_update c2Fs
      = .Updated ("Bitcoin update error: " ++ "copy bitcoind to temp failed" ++ "\n"
          ++ ("Electrs (" ++ "electrs-0.10.5" ++ "): " ++ joinComma ["electrs"])) :=
  run_update_component_isolation c2Fs "bitcoin-27.0" "electrs-0.10.5"
    "copy bitcoind to temp failed" ["electrs"] rfl rfl (by decide) (by decide) rfl rfl
    (by decide)

-- ═ Helper lemmas: version selection ══════════════════════════════════════════

theorem verLt_trans {a b c : Nat × Nat × Nat}
    (h1 : verLt a b = true) (h2 : verLt b c = true) : verLt a c = true := by
  obtain ⟨a1, a2, a3⟩ := a
  obtain ⟨b1, b2, b3⟩ := b
  obtain ⟨c1, c2, c3⟩ := c
  simp only [verLt, Bool.or_eq_true, Bool.and_eq_true, decide_eq_true_eq] at *
  omega

theorem verLt_not_trans {a b c : Nat × Nat × Nat}
    (h1 : verLt a b = false) (h2 : verLt b c = false) : verLt a c = false := by
  obtain ⟨a1, a2, a3⟩ := a
  obtain ⟨b1, b2, b3⟩ := b
  obtain ⟨c1, c2, c3⟩ := c
  simp only [verLt, Bool.or_eq_false_iff, Bool.and_eq_false_iff,
    decide_eq_false_iff_not] at *
  omega

theorem verLt_irrefl (a : Nat × Nat × Nat) : verLt a a = false := by
  obtain ⟨a1, a2, a3⟩ := a
  simp [verLt]

theorem verLt_asymm {a b : Nat × Nat × Nat} (h : verLt a b = true) :
    verLt b a = false := by
  obtain ⟨a1, a2, a3⟩ := a
  obtain ⟨b1, b2, b3⟩ := b
  simp only [verLt, Bool.or_eq_true, Bool.and_eq_true, decide_eq_true_eq,
    Bool.or_eq_false_iff, Bool.and_eq_false_iff, decide_eq_false_iff_not] at *
  omega

theorem flvStep_eq_pick (pre : String) (best : Option ((Nat × Nat × Nat) × String))
    (en : String × Bool) :
    flvStep pre best en =
      match entryCand pre en with
      | none => best
      | some c => pickLater best c := by
  obtain ⟨nm, isd⟩ := en
  cases isd with
  | false => simp [flvStep, entryCand]
  | true =>
    cases hs : stripPre nm (pre ++ "-") with
    | none => simp [flvStep, entryCand, hs]
    | some vs =>
      cases hp : parse_semver vs with
      | none => simp [flvStep, entryCand, hs, hp]
      | some v =>
        cases best with
        | none => simp [flvStep, entryCand, pickLater, hs, hp]
        | some b =>
          obtain ⟨bv, bn⟩ := b
          simp [flvStep, entryCand, pickLater, hs, hp]

theorem foldl_flvStep_eq (pre : String) (entries : List (String × Bool)) :
    ∀ acc, entries.foldl (flvStep pre) acc = (candidates entries pre).foldl pickLater acc := by
  induction entries with
  | nil => intro acc; rfl
  | cons en rest ih =>
    intro acc
    rw [List.foldl_cons, flvStep_eq_pick]
    cases h : entryCand pre en with
    | none =>
      simp only [candidates, List.filterMap_cons, h]
      exact ih acc
    | some c =>
      simp only [candidates, List.filterMap_cons, h, List.foldl_cons]
      exact ih (pickLater acc c)

theorem foldl_pickLater_some (cs : List ((Nat × Nat × Nat) × String)) :
    ∀ b, cs.foldl pickLater (some b) =
      match selectLatestSpec cs with
      | none => some b
      | some m => if verLt b.1 m.1 then some m else some b := by
  induction cs with
  | nil => intro b; rfl
  | cons c cs ih =>
    intro b
    rw [List.foldl_cons]
    show cs.foldl pickLater (if verLt b.1 c.1 then some c else some b) = _
    by_cases hbc : verLt b.1 c.1 = true
    · rw [if_pos hbc, ih c]
      cases hcs : selectLatestSpec cs with
      | none => simp only [selectLatestSpec, hcs, hbc, if_pos]
      | some m =>
        by_cases hcm : verLt c.1 m.1 = true
        · have hbm : verLt b.1 m.1 = true := verLt_trans hbc hcm
          simp only [selectLatestSpec, hcs, hcm, if_pos, hbm]
        · have hcm' : verLt c.1 m.1 = false := by
            cases hv : verLt c.1 m.1
            · rfl
            · exact absurd hv hcm
          simp only [selectLatestSpec, hcs, hcm', Bool.false_eq_true, if_false, hbc, if_pos]
    · have hbc' : verLt b.1 c.1 = false := by
        cases hv : verLt b.1 c.1
        · rfl
        · exact absurd hv hbc
      rw [if_neg (by simp [hbc']), ih b]
      cases hcs : selectLatestSpec cs with
      | none => simp only [selectLatestSpec, hcs, hbc', Bool.false_eq_true, if_false]
      | some m =>
        by_cases hcm : verLt c.1 m.1 = true
        · simp only [selectLatestSpec, hcs, hcm, if_pos]
        · have hcm' : verLt c.1 m.1 = false := by
            cases hv : verLt c.1 m.1
            · rfl
            · exact absurd hv hcm
          have hbm : verLt b.1 m.1 = false := verLt_not_trans hbc' hcm'
          simp only [selectLatestSpec, hcs, hcm', Bool.false_eq_true, if_false, hbm, hbc']

theorem foldl_pickLater_none (cs : List ((Nat × Nat × Nat) × String)) :
    cs.foldl pickLater none = selectLatestSpec cs := by
  cases cs with
  | nil => rfl
  | cons c cs =>
    rw [List.foldl_cons]
    show cs.foldl pickLater (some c) = _
    rw [foldl_pickLater_some cs c]
    rfl

theorem selectLatestSpec_eq_none (cs : List ((Nat × Nat × Nat) × String)) :
    selectLatestSpec cs = none ↔ cs = [] := by
  cases cs with
  | nil => simp [selectLatestSpec]
  | cons c rest =>
    simp only [selectLatestSpec]
    constructor
    · intro h
      cases hr : selectLatestSpec rest with
      | none =>
        simp only [hr] at h
        exact absurd h (by simp)
      | some b =>
        simp only [hr] at h
        by_cases hv : verLt c.1 b.1 = true
        · rw [if_pos hv] at h; exact absurd h (by simp)
        · rw [if_neg hv] at h; exact absurd h (by simp)
    · intro h
      exact absurd h (by simp)

theorem selectLatestSpec_max (cs : List ((Nat × Nat × Nat) × String)) :
    ∀ c, selectLatestSpec cs = some c → c ∈ cs ∧ ∀ d ∈ cs, verLt c.1 d.1 = false := by
  induction cs with
  | nil => intro c h; exact absurd h (by simp [selectLatestSpec])
  | cons c0 rest ih =>
    intro c h
    rw [show selectLatestSpec (c0 :: rest)
        = (match selectLatestSpec rest with
           | none => some c0
           | some b => if verLt c0.1 b.1 then some b else some c0) from rfl] at h
    cases hr : selectLatestSpec rest with
    | none =>
      simp only [hr] at h
      have hc : c = c0 := by
        have := h
        simp only [Option.some_inj] at this
        exact this.symm
      have hrest : rest = [] := (selectLatestSpec_eq_none rest).mp hr
      subst hc hrest
      refine ⟨List.mem_singleton_self c, ?_⟩
      intro d hd
      rw [List.mem_singleton] at hd
      subst hd
      exact verLt_irrefl _
    | some b =>
      simp only [hr] at h
      obtain ⟨hbmem, hbmax⟩ := ih b hr
      by_cases hcb : verLt c0.1 b.1 = true
      · rw [if_pos hcb] at h
        have hc : c = b := by
          simp only [Option.some_inj] at h
          exact h.symm
        subst hc
        refine ⟨List.mem_cons_of_mem _ hbmem, ?_⟩
        intro d hd
        rcases List.mem_cons.mp hd with hd0 | hdr
        · subst hd0
          exact verLt_asymm hcb
        · exact hbmax d hdr
      · have hcb' : verLt c0.1 b.1 = false := by
          cases hv : verLt c0.1 b.1
          · rfl
          · exact absurd hv hcb
        rw [if_neg hcb] at h
        have hc : c = c0 := by
          simp only [Option.some_inj] at h
          exact h.symm
        subst hc
        refine ⟨List.mem_cons_self _ _, ?_⟩
        intro d hd
        rcases List.mem_cons.mp hd with hd0 | hdr
        · subst hd0
          exact verLt_irrefl _
        · exact verLt_not_trans hcb' (hbmax d hdr)

theorem startsWithL_append_singleton (l : List Char) (c : Char) :
    startsWithL l (l ++ [c]) = false := by
  induction l with
  | nil => rfl
  | cons d ds ih => simp [startsWithL, ih]

theorem flvStep_ignores_bare (pre : String)
    (best : Option ((Nat × Nat × Nat) × String)) :
    flvStep pre best (pre, true) = best := by
  have hsw : startsWithL pre.data (pre.data ++ ['-']) = false :=
    startsWithL_append_singleton pre.data '-'
  simp [flvStep, stripPre, hsw]

/-- C6 (confirmed): `find_latest_version` returns, among directory entries
named `<pre>-<semver>` with a parsable version (missing minor or patch
defaulting to 0), the first-enumerated entry whose (major, minor, patch)
tuple is lexicographically greatest — only a strictly greater tuple
replaces the current best, so the first-enumerated entry wins ties; a
folder named exactly the component leaves the scan state untouched; and
the parse examples and folder-selection examples of the claim all hold. -/
theorem find_latest_version_spec :
    (∀ (entries : List (String × Bool)) (pre : String),
        find_latest_version entries pre
          = (selectLatestSpec (candidates entries pre)).map Prod.snd)
    ∧ (∀ (cs : List ((Nat × Nat × Nat) × String)) (c : (Nat × Nat × Nat) × String),
        selectLatestSpec cs = some c → c ∈ cs ∧ ∀ d ∈ cs, verLt c.1 d.1 = false)
    ∧ (∀ (pre : String) (best : Option ((Nat × Nat × Nat) × String)),
        flvStep pre best (pre, true) = best)
    ∧ parse_semver "27.0" = some (27, 0, 0)
    ∧ parse_semver "0.10.5" = some (0, 10, 5)
    ∧ parse_semver "1" = some (1, 0, 0)
    ∧ parse_semver "" = none
    ∧ find_latest_version
        [("bitcoin-26.0", true), ("bitcoin-27.1", true), ("bitcoin-27.0", true)]
        "bitcoin" = some "bitcoin-27.1"
    ∧ find_latest_version [("bitcoin-27.1.0", true), ("bitcoin-27.1", true)]
        "bitcoin" = some "bitcoin-27.1.0"
    ∧ find_latest_version [("bitcoin", true)] "bitcoin" = none := by
  refine ⟨?_, selectLatestSpec_max, flvStep_ignores_bare,
    by decide, by decide, by decide, by decide, by decide, by decide, by decide⟩
  intro entries pre
  rw [find_latest_version, foldl_flvStep_eq, foldl_pickLater_none]

/-- C6 witness: maximality of the selected candidate at a concrete list
with a tie — the first-enumerated of the two equal versions is selected
and is maximal. -/
theorem find_latest_version_spec_witness :
    (((27, 1, 0), "bitcoin-27.1.0") ∈
        [(((27, 1, 0) : Nat × Nat × Nat), "bitcoin-27.1.0"), ((27, 1, 0), "bitcoin-27.1")]
      ∧ ∀ d ∈ [(((27, 1, 0) : Nat × Nat × Nat), "bitcoin-27.1.0"), ((27, 1, 0), "bitcoin-27.1")],
          verLt (27, 1, 0) d.1 = false) :=
  find_latest_version_spec.2.1
    [(((27, 1, 0) : Nat × Nat × Nat), "bitcoin-27.1.0"), ((27, 1, 0), "bitcoin-27.1")]
    ((27, 1, 0), "bitcoin-27.1.0") (by decide)

-- ═ C3: stickiness of the indexer-synced flag ════════════════════════════════

/-- C3 counterexample: along a reachable trace (launch both daemons, a
reader pushes a sync line, an OutputTick drains it and sets the flag), the
next OutputTick observes *bitcoind* dead while electrs is alive with its
handle intact — and that step clears electrs_synced even though the
indexer process neither exited nor was terminated there, contradicting the
claim that only an indexer exit clears the flag. -/
theorem electrs_synced_cleared_by_bitcoind_exit :
    c3s4.electrs_synced = true ∧ c3s5.electrs_synced = false
      ∧ c3s4.electrs_running = true ∧ c3s5.electrs_running = true
      ∧ c3s5.electrs_handle = true
      ∧ c3s4.bitcoin_running = true ∧ c3s5.bitcoin_running = false := by
  decide

/-- C3 amended: once electrs_synced is set, the only steps that clear it
are a shutdown request (which terminates the indexer), an OutputTick in
which the bitcoind process or the electrs process has exited, or a
successful electrs relaunch. -/
theorem electrs_synced_sticky (s : AppState) (a : Act)
    (h1 : s.electrs_synced = true) (h2 : (step s a).electrs_synced = false) :
    clearsElectrsSynced s a := by
  cases a with
  | pushBtc l =>
    exfalso
    simp only [step] at h2
    rw [h1] at h2
    exact Bool.noConfusion h2
  | pushEls l =>
    exfalso
    simp only [step] at h2
    rw [h1] at h2
    exact Bool.noConfusion h2
  | ui m e =>
    cases m with
    | OutputTick =>
      simp only [clearsElectrsSynced]
      by_cases hb : (s.bitcoin_running && s.bitcoin_handle && !e.bitcoin_alive) = true
      · refine Or.inl ?_
        simp only [Bool.and_eq_true, Bool.not_eq_true'] at hb
        exact ⟨hb.1.1, hb.1.2, hb.2⟩
      · by_cases he : (s.electrs_running && s.electrs_handle && !e.electrs_alive) = true
        · refine Or.inr ?_
          simp only [Bool.and_eq_true, Bool.not_eq_true'] at he
          exact ⟨he.1.1, he.1.2, he.2⟩
        · exfalso
          have hb' : (s.bitcoin_running && s.bitcoin_handle && !e.bitcoin_alive) = false := by
            cases hv : s.bitcoin_running && s.bitcoin_handle && !e.bitcoin_alive
            · rfl
            · exact absurd hv hb
          have he' : (s.electrs_running && s.electrs_handle && !e.electrs_alive) = false := by
            cases hv : s.electrs_running && s.electrs_handle && !e.electrs_alive
            · rfl
            · exact absurd hv he
          simp only [step, stepMsg, hb', he', Bool.false_eq_true, if_false] at h2
          rw [h1] at h2
          simp at h2
    | RpcTick =>
      exfalso
      simp only [step, stepMsg] at h2
      rw [h1] at h2
      exact Bool.noConfusion h2
    | BinariesPathChanged v =>
      exfalso
      simp only [step, stepMsg] at h2
      rw [h1] at h2
      exact Bool.noConfusion h2
    | BitcoinDataPathChanged v =>
      exfalso
      simp only [step, stepMsg] at h2
      rw [h1] at h2
      exact Bool.noConfusion h2
    | ElectrsDataPathChanged v =>
      exfalso
      simp only [step, stepMsg] at h2
      rw [h1] at h2
      exact Bool.noConfusion h2
    | BrowseBinaries =>
      exfalso
      simp only [step, stepMsg] at h2
      rw [h1] at h2
      exact Bool.noConfusion h2
    | BrowseBitcoinData =>
      exfalso
      simp only [step, stepMsg] at h2
      rw [h1] at h2
      exact Bool.noConfusion h2
    | BrowseElectrsData =>
      exfalso
      simp only [step, stepMsg] at h2
      rw [h1] at h2
      exact Bool.noConfusion h2
    | BinariesBrowsed p =>
      exfalso
      cases p with
      | none =>
        simp only [step, stepMsg] at h2
        rw [h1] at h2
        exact Bool.noConfusion h2
      | some v =>
        simp only [step, stepMsg] at h2
        rw [h1] at h2
        exact Bool.noConfusion h2
    | BitcoinDataBrowsed p =>
      exfalso
      cases p with
      | none =>
        simp only [step, stepMsg] at h2
        rw [h1] at h2
        exact Bool.noConfusion h2
      | some v =>
        simp only [step, stepMsg] at h2
        rw [h1] at h2
        exact Bool.noConfusion h2
    | ElectrsDataBrowsed p =>
      exfalso
      cases p with
      | none =>
        simp only [step, stepMsg] at h2
        rw [h1] at h2
        exact Bool.noConfusion h2
      | some v =>
        simp only [step, stepMsg] at h2
        rw [h1] at h2
        exact Bool.noConfusion h2
    | SavePaths =>
      exfalso
      simp only [step, stepMsg] at h2
      split at h2 <;> (rw [h1] at h2; exact Bool.noConfusion h2)
    | PathsSaved r =>
      exfalso
      cases r with
      | ok u =>
        simp only [step, stepMsg] at h2
        rw [h1] at h2
        exact Bool.noConfusion h2
      | error err =>
        simp only [step, stepMsg] at h2
        rw [h1] at h2
        exact Bool.noConfusion h2
    | TogglePathsPanel =>
      exfalso
      simp only [step, stepMsg] at h2
      rw [h1] at h2
      exact Bool.noConfusion h2
    | LaunchBitcoin =>
      exfalso
      simp only [step, stepMsg] at h2
      split at h2
      · rw [h1] at h2
        exact Bool.noConfusion h2
      · cases hl : e.btc_launch with
        | ok =>
          rw [hl] at h2
          rw [h1] at h2
          exact Bool.noConfusion h2
        | fail cp err =>
          rw [hl] at h2
          rw [h1] at h2
          exact Bool.noConfusion h2
    | LaunchElectrs =>
      simp only [clearsElectrsSynced]
      by_cases hr : s.electrs_running = true
      · exfalso
        simp only [step, stepMsg, hr, if_true] at h2
        rw [h1] at h2
        exact Bool.noConfusion h2
      · have hr' : s.electrs_running = false := by
          cases hv : s.electrs_running
          · rfl
          · exact absurd hv hr
        by_cases hbr : s.bitcoin_running = true
        · cases hl : e.els_launch with
          | ok => exact ⟨hr', hbr, rfl⟩
          | fail cp err =>
            exfalso
            simp only [step, stepMsg, hr', Bool.false_eq_true, if_false, hbr,
              Bool.not_true, hl] at h2
            rw [h1] at h2
            exact Bool.noConfusion h2
        · exfalso
          have hbr' : s.bitcoin_running = false := by
            cases hv : s.bitcoin_running
            · rfl
            · exact absurd hv hbr
          simp only [step, stepMsg, hr', hbr', Bool.false_eq_true, if_false,
            Bool.not_false, if_true] at h2
          rw [h1] at h2
          exact Bool.noConfusion h2
    | ShutdownBoth =>
      simp only [clearsElectrsSynced]
    | ShutdownElectrsOnly =>
      simp only [clearsElectrsSynced]
    | BlockchainInfoReceived r =>
      exfalso
      cases r with
      | ok info =>
        simp only [step, stepMsg] at h2
        rw [h1] at h2
        exact Bool.noConfusion h2
      | error err =>
        simp only [step, stepMsg] at h2
        rw [h1] at h2
        exact Bool.noConfusion h2
    | UpdateBinaries =>
      exfalso
      simp only [step, stepMsg] at h2
      rw [h1] at h2
      exact Bool.noConfusion h2
    | UpdateResultMsg v =>
      exfalso
      simp only [step, stepMsg] at h2
      split at h2 <;> (rw [h1] at h2; exact Bool.noConfusion h2)
    | DismissOverlay =>
      exfalso
      simp only [step, stepMsg] at h2
      rw [h1] at h2
      exact Bool.noConfusion h2
    | OpenBitForge p =>
      exfalso
      simp only [step, stepMsg] at h2
      rw [h1] at h2
      exact Bool.noConfusion h2
    | Noop =>
      exfalso
      simp only [step, stepMsg] at h2
      rw [h1] at h2
      exact Bool.noConfusion h2

/-- C3 witness: a shutdown request is one of the legitimate clearing steps
at a concrete state with the flag set. -/
theorem electrs_synced_sticky_witness :
    clearsElectrsSynced c3ClearState (.ui .ShutdownElectrsOnly envBothAlive) :=
  electrs_synced_sticky c3ClearState (.ui .ShutdownElectrsOnly envBothAlive) rfl rfl
